import Mathlib

/-!
Verification of the fourdst composition engine against its design
specification.  The Python binding layer (src-pybind) is embedded
directly; the underlying C++ engine (composition.h, species.h,
composition_hash.h), which the bindings call into, is modelled from the
specification where noted.  Machine doubles are modelled as exact
rationals (ℚ): the spec's equality/hash contract is bit-exact, which ℚ
equality captures, and all conversion formulas are exact field
arithmetic.
-/

namespace Fourdst

/-- Modelled from the spec: the `fourdst::atomic::Species` value type is not
under src/; per §3 it carries identity (display name "El-A", element
symbol, proton number Z, neutron number N, mass number A) and an atomic
mass in amu.  Fields not needed by any claim (mass uncertainty, binding
energy, beta-decay data) are omitted. -/
structure Species where
  name : String
  el : String
  z : Nat
  n : Nat
  a : Nat
  mass : ℚ
deriving DecidableEq, Repr

/-- Modelled from the spec: the process-wide Species Registry (§3, §4.1) is
an immutable mapping from symbol "El-A" to Species; its data file is not
under src/.  A representative sample of nuclides is used, with the mass
numbers the spec's own formulas use for atomic masses. -/
def speciesRegistry : List (String × Species) :=
  [ ("H-1",  ⟨"H-1",  "H",  1,  0,  1,  1⟩)
  , ("H-2",  ⟨"H-2",  "H",  1,  1,  2,  2⟩)
  , ("He-3", ⟨"He-3", "He", 2,  1,  3,  3⟩)
  , ("He-4", ⟨"He-4", "He", 2,  2,  4,  4⟩)
  , ("C-12", ⟨"C-12", "C",  6,  6,  12, 12⟩)
  , ("O-16", ⟨"O-16", "O",  8,  8,  16, 16⟩)
  , ("Fe-56", ⟨"Fe-56", "Fe", 26, 30, 56, 56⟩) ]

/-- Modelled from the spec: registry lookup by symbol (§4.1
lookupBySymbol); absence is the non-exceptional result none. -/
def lookupSymbol (sym : String) : Option Species :=
  (speciesRegistry.find? (fun e => e.1 = sym)).map (fun e => e.2)

/-- Modelled from the spec: registry lookup by mass number A and proton
number Z (§4.1 lookupByAZ); absence is the non-exceptional result
none.  The C++ binding calls it with int arguments, hence ℤ here. -/
def az_to_species (a z : Int) : Option Species :=
  (speciesRegistry.find? (fun e => (e.2.a : Int) = a ∧ (e.2.z : Int) = z)).map
    (fun e => e.2)

/-- Modelled from the spec: the Composition aggregate (§3).  Per the design
notes the canonical internal quantity is the molar abundance, so each
registered species carries one stored scalar; the registered-species set
is the list of keys. -/
structure Composition where
  entries : List (Species × ℚ)
deriving DecidableEq, Repr

namespace Composition

/-- Registered species of a composition, in insertion order. -/
def keys (c : Composition) : List Species :=
  c.entries.map (fun e => e.1)

/-- Membership of a species in the composition. -/
def containsSpecies (c : Composition) (s : Species) : Bool :=
  c.entries.any (fun e => e.1 = s)

/-- Membership of a symbol in the composition. -/
def containsSymbol (c : Composition) (sym : String) : Bool :=
  c.entries.any (fun e => e.1.name = sym)

/-- Stored molar abundance of a species (0 when not registered). -/
def molarAbundance (c : Composition) (s : Species) : ℚ :=
  ((c.entries.find? (fun e => e.1 = s)).map (fun e => e.2)).getD 0

/-- Sum of molar abundances over all registered species. -/
def sumY (c : Composition) : ℚ :=
  (c.entries.map (fun e => e.2)).sum

/-- Sum of molar abundance times atomic mass over all registered species:
the mass per unit mass of the stored state (1 when normalized). -/
def sumYA (c : Composition) : ℚ :=
  (c.entries.map (fun e => e.2 * e.1.mass)).sum

/-- Modelled from the spec: getMassFraction (§4.3): mass_fraction_i =
molar_abundance_i · A_i, normalized by the total so that fractions sum
to one whether or not the stored state was normalized. -/
def getMassFraction (c : Composition) (s : Species) : ℚ :=
  c.molarAbundance s * s.mass / c.sumYA

/-- Modelled from the spec: getNumberFraction (§4.3): the species' share
of the total particle (mole) count. -/
def getNumberFraction (c : Composition) (s : Species) : ℚ :=
  c.molarAbundance s / c.sumY

/-- Modelled from the spec: getMeanParticleMass (§4.3): mean particle
mass = 1 / Σ_j molar_abundance_j, in amu. -/
def getMeanParticleMass (c : Composition) : ℚ :=
  1 / c.sumY

/-- Structural invariants the engine maintains for every composition:
registered species are unique (§3), atomic masses are positive, and
stored abundances are nonnegative. -/
def valid (c : Composition) : Prop :=
  c.keys.Nodup ∧ (∀ e ∈ c.entries, 0 < e.1.mass) ∧ ∀ e ∈ c.entries, 0 ≤ e.2

/-- A finalized composition: valid with a positive total abundance, so
every conversion denominator is nonzero (§4.3: conversion getters are
valid only post-finalize). -/
def finalized (c : Composition) : Prop :=
  c.valid ∧ 0 < c.sumY

instance : DecidablePred valid := fun c => by
  unfold valid; infer_instance

instance : DecidablePred finalized := fun c => by
  unfold finalized; infer_instance

end Composition

/-- Key for the canonical total order on stored entries: ascending atomic
mass with stable tie-break by symbol (§3), extended by the remaining
identity fields and the stored value so that the order is antisymmetric
on full entries. -/
def entryKey (e : Species × ℚ) :
    Lex (ℚ × Lex (String × Lex (String × Lex (Nat × Lex (Nat × Lex (Nat × ℚ)))))) :=
  toLex (e.1.mass, toLex (e.1.name, toLex (e.1.el,
    toLex (e.1.z, toLex (e.1.n, toLex (e.1.a, e.2))))))

/-- Canonical order relation on entries, via the lexicographic key. -/
def entryR (e1 e2 : Species × ℚ) : Prop :=
  entryKey e1 ≤ entryKey e2

instance : DecidableRel entryR := fun e1 e2 =>
  inferInstanceAs (Decidable (entryKey e1 ≤ entryKey e2))

instance : IsTotal (Species × ℚ) entryR :=
  ⟨fun e1 e2 => le_total (entryKey e1) (entryKey e2)⟩

instance : IsTrans (Species × ℚ) entryR :=
  ⟨fun _ _ _ h1 h2 => le_trans h1 h2⟩

theorem entryKey_injective : Function.Injective entryKey := by
  intro e1 e2 h
  obtain ⟨⟨n1, l1, z1, nn1, a1, m1⟩, v1⟩ := e1
  obtain ⟨⟨n2, l2, z2, nn2, a2, m2⟩, v2⟩ := e2
  simp only [entryKey, toLex_inj, Prod.mk.injEq] at h
  obtain ⟨h1, h2, h3, h4, h5, h6, h7⟩ := h
  simp_all

instance : IsAntisymm (Species × ℚ) entryR :=
  ⟨fun _ _ h1 h2 => entryKey_injective (le_antisymm h1 h2)⟩

namespace Composition

/-- The stored entries in canonical order: ascending atomic mass, stable
tie-break by symbol (§3), assigned at finalize. -/
def canonicalEntries (c : Composition) : List (Species × ℚ) :=
  c.entries.insertionSort entryR

/-- Modelled from the spec: the bound __eq__ (bindings.cpp 258-264 calls
the engine's operator==, not under src/); §3: equal iff same registered
species and bit-identical stored abundance values, which the canonical
enumeration of (species, value) pairs decides. -/
def compEq (c1 c2 : Composition) : Bool :=
  c1.canonicalEntries = c2.canonicalEntries

end Composition

/-- Accumulator mix step for the exact hash. -/
def hashCombine (h v : Nat) : Nat :=
  h * 1000003 + v

/-- Deterministic hash of a symbol string. -/
def stringHashVal (s : String) : Nat :=
  s.data.foldl (fun h c => hashCombine h c.toNat) 7

/-- Modelled from the spec: each species' identity hash (§3: hash and
equality of Species are value-based). -/
def speciesIdHash (s : Species) : Nat :=
  hashCombine (hashCombine (stringHashVal s.name) s.z) s.a

/-- Exact encoding of a stored abundance value: the model counterpart of
hashing the canonical bit pattern of the stored double (§9). -/
def ratBits (q : ℚ) : Nat :=
  hashCombine (hashCombine q.num.natAbs (if q.num < 0 then 1 else 0)) q.den

namespace CompositionHash

/-- Modelled from the spec: CompositionHash::hash_exact (the template in
composition_hash.h is not under src/); §4.3: combines, in canonical
order, each species' identity hash with the exact bit pattern of its
stored abundance. -/
def hash_exact (c : Composition) : Nat :=
  c.canonicalEntries.foldl
    (fun h e => hashCombine (hashCombine h (speciesIdHash e.1)) (ratBits e.2)) 0

end CompositionHash

/-- The bound Composition.__hash__ (bindings.cpp 265-270): calls
CompositionHash::hash_exact on the composition. -/
def dunder_hash (c : Composition) : Nat :=
  CompositionHash.hash_exact c

/-- The utils.CompositionHash.hash_exact static binding (bindings.cpp
272-280): the same CompositionHash::hash_exact template instantiated at
Composition. -/
def utils_hash_exact (c : Composition) : Nat :=
  CompositionHash.hash_exact c

/-- The Python exception types registered for the composition module
(bindings.cpp 394-400). -/
inductive PyExc
  | CompositionError
  | InvalidCompositionError
  | SpeciesError
  | UnknownSymbolError
  | UnregisteredSymbolError
deriving DecidableEq, Repr

/-- The base (parent) exception of each registered exception type, read
off register_comp_exceptions (bindings.cpp 394-400): each
py::register_exception call names its base as the third argument. -/
def pyExcBase : PyExc → Option PyExc
  | .InvalidCompositionError => some .CompositionError
  | .UnknownSymbolError => some .SpeciesError
  | .UnregisteredSymbolError => some .SpeciesError
  | _ => none

/-- The bound chem submodule az_to_species wrapper (bindings.cpp
380-391): escalates the registry's non-exceptional not-found result to a
raised SpeciesError. -/
def az_to_species_py (a z : Int) : Except PyExc Species :=
  match az_to_species a z with
  | none => .error .SpeciesError
  | some s => .ok s

namespace Composition

/-- Modelled from the spec: registerSymbol (§4.3): looks up the Species
Registry, fails with UnknownSymbolError if the symbol is not in the
registry; a newly registered species starts at zero abundance;
registering an already-present species is an idempotent no-op. -/
def registerSymbol (c : Composition) (sym : String) : Except PyExc Composition :=
  match lookupSymbol sym with
  | none => .error .UnknownSymbolError
  | some s =>
    if c.containsSpecies s then .ok c
    else .ok ⟨c.entries ++ [(s, 0)]⟩

/-- Modelled from the spec: the singular setMolarAbundance (§4.3):
requires the target already registered, fails with
UnregisteredSymbolError otherwise; on success overwrites the stored
scalar of that symbol's entry. -/
def setMolarAbundanceOne (c : Composition) (sym : String) (v : ℚ) :
    Except PyExc Composition :=
  if c.containsSymbol sym then
    .ok ⟨c.entries.map (fun e => if e.1.name = sym then (e.1, v) else e)⟩
  else .error .UnregisteredSymbolError

/-- Application loop of a validated batch: applies the singular setter to
each (symbol, value) pair in turn, threading the state; stops at the
first error, returning the state reached so far. -/
def applyLoop : Composition → List (String × ℚ) → Composition × Option PyExc
  | c, [] => (c, none)
  | c, p :: rest =>
    match c.setMolarAbundanceOne p.1 p.2 with
    | .error e => (c, some e)
    | .ok c1 => applyLoop c1 rest

/-- Modelled from the spec: the batch setMolarAbundance (§4.3, §7):
requires the value array length to equal the symbol array length, else
fails with InvalidCompositionError; validates every target before
applying any value (all or nothing), failing with
UnregisteredSymbolError when a target is absent.  Returned is the
composition the caller observes afterwards together with the raised
error, if any. -/
def setMolarAbundance (c : Composition) (syms : List String) (vals : List ℚ) :
    Composition × Option PyExc :=
  if syms.length ≠ vals.length then (c, some .InvalidCompositionError)
  else if ¬ (syms.all (fun s => c.containsSymbol s)) then
    (c, some .UnregisteredSymbolError)
  else applyLoop c (syms.zip vals)

/-- Canonical composition X: combined mass fraction of all registered
isotopes whose element symbol is "H" (§4.2). -/
def canonicalX (c : Composition) : ℚ :=
  ((c.entries.filter (fun e => e.1.el = "H")).map
    (fun e => c.getMassFraction e.1)).sum

/-- Canonical composition Y: combined mass fraction of all registered
isotopes whose element symbol is "He" (§4.2). -/
def canonicalY (c : Composition) : ℚ :=
  ((c.entries.filter (fun e => e.1.el = "He")).map
    (fun e => c.getMassFraction e.1)).sum

/-- Canonical composition Z: the residual sum, the combined mass fraction
of every registered isotope that is neither hydrogen nor helium
(§4.2). -/
def canonicalZ (c : Composition) : ℚ :=
  ((c.entries.filter (fun e => e.1.el ≠ "H" ∧ e.1.el ≠ "He")).map
    (fun e => c.getMassFraction e.1)).sum

end Composition

/-- Modelled from the spec: the CanonicalComposition value type
(bindings.cpp 31-40 exposes fields X, Y, Z read-only). -/
structure CanonicalComposition where
  X : ℚ
  Y : ℚ
  Z : ℚ
deriving DecidableEq, Repr

namespace Composition

/-- Modelled from the spec: getCanonicalComposition (§4.2, §4.3): sums
mass fractions of hydrogen isotopes into X, helium into Y, the residual
into Z. -/
def getCanonicalComposition (c : Composition) : CanonicalComposition :=
  ⟨c.canonicalX, c.canonicalY, c.canonicalZ⟩

end Composition

/-- Key for the canonical species order: ascending atomic mass with
stable tie-break by symbol (§3). -/
def speciesKey (s : Species) : Lex (ℚ × String) :=
  toLex (s.mass, s.name)

/-- Canonical order relation on species. -/
def speciesR (s1 s2 : Species) : Prop :=
  speciesKey s1 ≤ speciesKey s2

instance : DecidableRel speciesR := fun s1 s2 =>
  inferInstanceAs (Decidable (speciesKey s1 ≤ speciesKey s2))

instance : IsTotal Species speciesR :=
  ⟨fun s1 s2 => le_total (speciesKey s1) (speciesKey s2)⟩

instance : IsTrans Species speciesR :=
  ⟨fun _ _ _ h1 h2 => le_trans h1 h2⟩

namespace Composition

/-- The registered species in canonical order: ascending atomic mass,
stable tie-break by symbol, assigned at finalize (§3). -/
def canonicalOrder (c : Composition) : List Species :=
  c.keys.insertionSort speciesR

/-- Modelled from the spec: getSpeciesIndex (§4.3 Indexing): position of
a registered species in the canonical order. -/
def getSpeciesIndex (c : Composition) (s : Species) : Nat :=
  c.canonicalOrder.indexOf s

/-- Modelled from the spec: getSpeciesAtIndex (§4.3 Indexing): the
species at a given index of the canonical order, none when out of
range. -/
def getSpeciesAtIndex (c : Composition) (i : Nat) : Option Species :=
  c.canonicalOrder.get? i

/-- Modelled from the spec: getMassFractionVector (§4.3): mass fractions
in canonical species order. -/
def getMassFractionVector (c : Composition) : List ℚ :=
  c.canonicalOrder.map (fun s => c.getMassFraction s)

/-- Modelled from the spec: getNumberFractionVector (§4.3): number
fractions in canonical species order. -/
def getNumberFractionVector (c : Composition) : List ℚ :=
  c.canonicalOrder.map (fun s => c.getNumberFraction s)

/-- Modelled from the spec: getMolarAbundanceVector (§4.3): molar
abundances in canonical species order. -/
def getMolarAbundanceVector (c : Composition) : List ℚ :=
  c.canonicalOrder.map (fun s => c.molarAbundance s)

end Composition

/-- The attribute-name transformation the binding applies to species
names (bindings.cpp 370-374): every '-' becomes '_'. -/
def replace_dash_with_underscore (str : String) : String :=
  ⟨str.data.map (fun ch => if ch = '-' then '_' else ch)⟩

/-- Values a registered attribute of the atomic submodule can hold. -/
inductive PyAttrVal
  | species (s : Species)
  | speciesMap (m : List (String × Species))
deriving DecidableEq, Repr

/-- The attributes register_species_bindings sets on the atomic submodule
(bindings.cpp 368-378): the full registry map as attribute "species",
then one attribute per registry entry under the dash-to-underscore
transformed name, bound to that species object. -/
def atomicModuleAttrs : List (String × PyAttrVal) :=
  ("species", .speciesMap speciesRegistry) ::
    speciesRegistry.map (fun e => (replace_dash_with_underscore e.1, .species e.2))

/-- Sample nuclide H-1 as registered, for concrete instantiations. -/
def sH1 : Species := ⟨"H-1", "H", 1, 0, 1, 1⟩

/-- The spec's concrete scenario (§8): symbols ["H-1", "He-4"], mass
fractions [0.7, 0.3], mass-fraction mode, finalize(normalize=false);
per the canonical conversion molar_abundance_i = mass_fraction_i / A_i
the stored molar abundances are 0.7/1 and 0.3/4. -/
def scenarioHHe : Composition :=
  ⟨[(⟨"H-1", "H", 1, 0, 1, 1⟩, 7/10), (⟨"He-4", "He", 2, 2, 4, 4⟩, 3/40)]⟩

/-- Sample nuclide He-4 as registered, for concrete instantiations. -/
def sHe4 : Species := ⟨"He-4", "He", 2, 2, 4, 4⟩

/-- Sample nuclide C-12 as registered, for concrete instantiations. -/
def sC12 : Species := ⟨"C-12", "C", 6, 6, 12, 12⟩

/-! Helper lemmas. -/

/-- The singular molar-abundance setter never changes the registered
species list. -/
theorem setMolarAbundanceOne_keys (c c' : Composition) (sym : String) (v : ℚ)
    (h : c.setMolarAbundanceOne sym v = .ok c') : c'.keys = c.keys := by
  unfold Composition.setMolarAbundanceOne at h
  by_cases hc : c.containsSymbol sym = true
  · simp only [hc, if_true] at h
    cases h
    unfold Composition.keys
    rw [List.map_map]
    congr 1
    funext e
    by_cases he : e.1.name = sym <;> simp [he]
  · simp [hc] at h

/-- Symbol membership only depends on the registered species list. -/
theorem containsSymbol_eq_keys (c : Composition) (sym : String) :
    c.containsSymbol sym = c.keys.any (fun k => k.name = sym) := by
  unfold Composition.containsSymbol Composition.keys
  induction c.entries with
  | nil => rfl
  | cons e rest ih => simp [List.any_cons, ih]

/-- When every target symbol is registered, the application loop of a
validated batch runs to completion without error. -/
theorem applyLoop_no_error (ps : List (String × ℚ)) :
    ∀ c : Composition, (∀ p ∈ ps, c.containsSymbol p.1 = true) →
    (Composition.applyLoop c ps).2 = none := by
  induction ps with
  | nil => intro c _; rfl
  | cons p rest ih =>
    intro c hall
    have hp : c.containsSymbol p.1 = true := hall p (List.mem_cons_self p rest)
    unfold Composition.applyLoop
    have hone : c.setMolarAbundanceOne p.1 p.2 =
        .ok ⟨c.entries.map (fun e => if e.1.name = p.1 then (e.1, p.2) else e)⟩ := by
      unfold Composition.setMolarAbundanceOne
      simp [hp]
    rw [hone]
    apply ih
    intro q hq
    have hkeys := setMolarAbundanceOne_keys c _ p.1 p.2 hone
    rw [containsSymbol_eq_keys, hkeys, ← containsSymbol_eq_keys]
    exact hall q (List.mem_cons_of_mem p hq)

/-- C9: for every Composition the bound Composition.__hash__ and the
separately exposed utils.CompositionHash.hash_exact compute the same
value: both binding sites dispatch to the same
CompositionHash::hash_exact function. -/
theorem hash_binding_agrees_with_utility (c : Composition) :
    dunder_hash c = utils_hash_exact c :=
  rfl

/-- C10: for every entry (name, species) of the global species registry
map, the atomic submodule exposes an attribute named by replacing every
'-' of the species name with '_', bound to that species object, and the
full map is exposed as the attribute "species". -/
theorem atomic_attrs_expose_species (e : String × Species)
    (he : e ∈ speciesRegistry) :
    (replace_dash_with_underscore e.1, PyAttrVal.species e.2) ∈ atomicModuleAttrs ∧
    ("species", PyAttrVal.speciesMap speciesRegistry) ∈ atomicModuleAttrs := by
  constructor
  · exact List.mem_cons_of_mem _ (List.mem_map_of_mem _ he)
  · exact List.mem_cons_self _ _

/-- Closed instance of atomic_attrs_expose_species at the H-1 registry
entry: the exposed attribute is named "H_1". -/
theorem atomic_attrs_expose_species_witness :
    ("H-1", sH1) ∈ speciesRegistry ∧
    ("H_1", PyAttrVal.species sH1) ∈ atomicModuleAttrs := by
  refine ⟨by decide, ?_⟩
  have h := atomic_attrs_expose_species ("H-1", sH1) (by decide)
  have hn : replace_dash_with_underscore "H-1" = "H_1" := by decide
  simpa [hn] using h.1

/-- C7: for every (a, z) pair absent from the Species Registry, the
registry lookup by mass number and proton number yields the
non-exceptional not-found result none; the escalation to a raised error
happens only in the binding wrapper, which turns none into a raised
SpeciesError. -/
theorem az_lookup_absent_is_not_found (a z : Int)
    (h : ∀ e ∈ speciesRegistry, ¬((e.2.a : Int) = a ∧ (e.2.z : Int) = z)) :
    az_to_species a z = none ∧ az_to_species_py a z = .error .SpeciesError := by
  have hfind : speciesRegistry.find?
      (fun e => decide ((e.2.a : Int) = a ∧ (e.2.z : Int) = z)) = none := by
    rw [List.find?_eq_none]
    intro e he
    simpa using h e he
  have hlook : az_to_species a z = none := by
    unfold az_to_species
    rw [hfind]
    rfl
  refine ⟨hlook, ?_⟩
  unfold az_to_species_py
  rw [hlook]

/-- Closed instance of az_lookup_absent_is_not_found at (a, z) =
(99, 99), a pair absent from the registry. -/
theorem az_lookup_absent_witness :
    az_to_species 99 99 = none ∧ az_to_species_py 99 99 = .error .SpeciesError :=
  az_lookup_absent_is_not_found 99 99 (by decide)

/-- C6: registering a symbol absent from the Species Registry fails with
UnknownSymbolError; UnknownSymbolError is registered as a specialization
of SpeciesError; registering a symbol present in the registry succeeds
without error. -/
theorem registerSymbol_unknown_symbol_error (c : Composition) (sym : String) :
    (lookupSymbol sym = none →
      c.registerSymbol sym = .error .UnknownSymbolError) ∧
    pyExcBase .UnknownSymbolError = some .SpeciesError ∧
    (∀ s, lookupSymbol sym = some s → ∃ c', c.registerSymbol sym = .ok c') := by
  refine ⟨?_, rfl, ?_⟩
  · intro h
    unfold Composition.registerSymbol
    rw [h]
  · intro s h
    unfold Composition.registerSymbol
    rw [h]
    by_cases hc : c.containsSpecies s = true
    · exact ⟨c, by simp [hc]⟩
    · exact ⟨⟨c.entries ++ [(s, 0)]⟩, by simp [hc]⟩

/-- Closed instance of registerSymbol_unknown_symbol_error: on an empty
Composition, registering the unknown symbol "Xx-99" raises
UnknownSymbolError while registering "H-1" succeeds. -/
theorem registerSymbol_unknown_symbol_error_witness :
    lookupSymbol "Xx-99" = none ∧
    Composition.registerSymbol ⟨[]⟩ "Xx-99" = .error .UnknownSymbolError ∧
    ∃ c', Composition.registerSymbol ⟨[]⟩ "H-1" = .ok c' := by
  refine ⟨by decide, ?_, ?_⟩
  · exact (registerSymbol_unknown_symbol_error ⟨[]⟩ "Xx-99").1 (by decide)
  · exact (registerSymbol_unknown_symbol_error ⟨[]⟩ "H-1").2.2 sH1 (by decide)

/-- C8: a batch setMolarAbundance call whose value array length differs
from its symbol array length fails with InvalidCompositionError, and
after any failed batch setter call the observable Composition state is
exactly the original one (all-or-nothing). -/
theorem setMolarAbundance_batch_all_or_nothing (c : Composition)
    (syms : List String) (vals : List ℚ) :
    (syms.length ≠ vals.length →
      c.setMolarAbundance syms vals = (c, some .InvalidCompositionError)) ∧
    (∀ e, (c.setMolarAbundance syms vals).2 = some e →
      (c.setMolarAbundance syms vals).1 = c) := by
  constructor
  · intro h
    unfold Composition.setMolarAbundance
    simp [h]
  · intro e he
    unfold Composition.setMolarAbundance at he ⊢
    by_cases hlen : syms.length ≠ vals.length
    · simp [hlen]
    · simp only [hlen, if_false] at he ⊢
      by_cases hall : syms.all (fun s => c.containsSymbol s) = true
      · simp only [hall, not_true, if_false] at he ⊢
        exfalso
        have : (Composition.applyLoop c (syms.zip vals)).2 = none := by
          apply applyLoop_no_error
          intro p hp
          have hmem : p.1 ∈ syms := (List.of_mem_zip hp).1
          exact (List.all_eq_true.mp hall) p.1 hmem
        rw [this] at he
        cases he
      · simp [hall]

/-- Closed instance of setMolarAbundance_batch_all_or_nothing: one
symbol against zero values fails with InvalidCompositionError and leaves
the stored abundances untouched. -/
theorem setMolarAbundance_batch_witness :
    (["H-1"].length ≠ ([] : List ℚ).length) ∧
    Composition.setMolarAbundance ⟨[(sH1, 1)]⟩ ["H-1"] [] =
      (⟨[(sH1, 1)]⟩, some .InvalidCompositionError) :=
  ⟨by decide,
    (setMolarAbundance_batch_all_or_nothing ⟨[(sH1, 1)]⟩ ["H-1"] []).1 (by decide)⟩

/-- C1: Composition equality holds iff the two compositions carry the
same registered species with bit-identical stored abundance values,
i.e. iff their stored entry collections are permutations of one
another; the bound hash is consistent with this exact equality, so two
Compositions built from the same symbols and values in different
insertion order compare equal and hash identically. -/
theorem composition_eq_iff_same_entries_and_hash_consistent
    (c1 c2 : Composition) :
    (Composition.compEq c1 c2 = true ↔ c1.entries.Perm c2.entries) ∧
    (Composition.compEq c1 c2 = true →
      CompositionHash.hash_exact c1 = CompositionHash.hash_exact c2) := by
  have hiff : Composition.compEq c1 c2 = true ↔
      c1.canonicalEntries = c2.canonicalEntries := by
    simp [Composition.compEq]
  constructor
  · rw [hiff]
    unfold Composition.canonicalEntries
    constructor
    · intro h
      have p1 := List.perm_insertionSort entryR c1.entries
      have p2 := List.perm_insertionSort entryR c2.entries
      rw [h] at p1
      exact p1.symm.trans p2
    · intro h
      apply List.eq_of_perm_of_sorted (r := entryR)
      · exact (List.perm_insertionSort entryR c1.entries).trans
          (h.trans (List.perm_insertionSort entryR c2.entries).symm)
      · exact List.sorted_insertionSort entryR c1.entries
      · exact List.sorted_insertionSort entryR c2.entries
  · intro h
    unfold CompositionHash.hash_exact
    rw [hiff.mp h]

/-- Closed instance of the C1 theorem: the same two species-value pairs
registered in opposite insertion orders give compositions that compare
equal and hash identically. -/
theorem composition_eq_witness :
    Composition.compEq ⟨[(sH1, 7), (sHe4, 3)]⟩ ⟨[(sHe4, 3), (sH1, 7)]⟩ = true ∧
    CompositionHash.hash_exact ⟨[(sH1, 7), (sHe4, 3)]⟩ =
      CompositionHash.hash_exact ⟨[(sHe4, 3), (sH1, 7)]⟩ :=
  ⟨by decide,
    (composition_eq_iff_same_entries_and_hash_consistent
      ⟨[(sH1, 7), (sHe4, 3)]⟩ ⟨[(sHe4, 3), (sH1, 7)]⟩).2 (by decide)⟩

/-- With unique keys, find? by key of a present pair yields that pair. -/
theorem find?_entries_of_mem :
    ∀ (l : List (Species × ℚ)), (l.map (fun e => e.1)).Nodup →
    ∀ {s : Species} {v : ℚ}, (s, v) ∈ l →
    l.find? (fun e => e.1 = s) = some (s, v) := by
  intro l
  induction l with
  | nil => intro _ s v hmem; cases hmem
  | cons e rest ih =>
    intro hnd s v hmem
    simp only [List.map_cons, List.nodup_cons] at hnd
    by_cases he : e.1 = s
    · have hev : e = (s, v) := by
        cases List.mem_cons.mp hmem with
        | inl h => exact h.symm
        | inr h =>
          exfalso
          apply hnd.1
          rw [he]
          exact List.mem_map_of_mem _ h
      rw [List.find?_cons_of_pos _ (by simp [he])]
      rw [hev]
    · rw [List.find?_cons_of_neg _ (by simp [he])]
      apply ih hnd.2
      cases List.mem_cons.mp hmem with
      | inl h => exact absurd (congrArg Prod.fst h.symm) he
      | inr h => exact h

/-- With unique registered species, the stored abundance looked up for a
registered species is the value of its entry. -/
theorem molarAbundance_of_mem (c : Composition) (hnd : c.keys.Nodup)
    {s : Species} {v : ℚ} (hmem : (s, v) ∈ c.entries) :
    c.molarAbundance s = v := by
  unfold Composition.molarAbundance
  rw [find?_entries_of_mem c.entries hnd hmem]
  rfl

/-- Positive masses and nonnegative values make the mass-weighted list
total positive as soon as the plain total is. -/
theorem sum_mul_mass_pos :
    ∀ (l : List (Species × ℚ)), (∀ e ∈ l, 0 < e.1.mass) →
    (∀ e ∈ l, 0 ≤ e.2) → 0 < (l.map (fun e => e.2)).sum →
    0 < (l.map (fun e => e.2 * e.1.mass)).sum := by
  intro l
  induction l with
  | nil => intro _ _ h; simp at h
  | cons e rest ih =>
    intro hm hnn h
    simp only [List.map_cons, List.sum_cons] at h ⊢
    have hmass := hm e (List.mem_cons_self e rest)
    have hval := hnn e (List.mem_cons_self e rest)
    have hrest : 0 ≤ (rest.map (fun x => x.2 * x.1.mass)).sum := by
      apply List.sum_nonneg
      intro x hx
      obtain ⟨y, hy, rfl⟩ := List.mem_map.mp hx
      exact mul_nonneg (hnn y (List.mem_cons_of_mem e hy))
        (le_of_lt (hm y (List.mem_cons_of_mem e hy)))
    rcases lt_or_eq_of_le hval with hpos | hzero
    · have h1 : 0 < e.2 * e.1.mass := mul_pos hpos hmass
      linarith
    · have h' : 0 < (rest.map (fun x => x.2)).sum := by
        rw [← hzero] at h
        simpa using h
      have := ih (fun y hy => hm y (List.mem_cons_of_mem e hy))
        (fun y hy => hnn y (List.mem_cons_of_mem e hy)) h'
      nlinarith

/-- Nonnegative stored values and positive masses make the mass-weighted
total of a finalized composition positive. -/
theorem sumYA_pos (c : Composition) (hv : c.valid) (h : 0 < c.sumY) :
    0 < c.sumYA :=
  sum_mul_mass_pos c.entries hv.2.1 hv.2.2 h

/-- Summed over all registered species, mass fraction over atomic mass
gives the molar total divided by the mass-weighted total. -/
theorem sum_massFraction_div_mass (c : Composition) (hv : c.valid)
    (h : 0 < c.sumY) :
    (c.entries.map (fun j => c.getMassFraction j.1 / j.1.mass)).sum =
      c.sumY / c.sumYA := by
  have hSA := sumYA_pos c hv h
  have hmap : c.entries.map (fun j => c.getMassFraction j.1 / j.1.mass) =
      c.entries.map (fun j => j.2 * c.sumYA⁻¹) := by
    apply List.map_congr_left
    intro j hj
    have hm := hv.2.1 j hj
    have := molarAbundance_of_mem c hv.1 (s := j.1) (v := j.2) (by exact hj)
    unfold Composition.getMassFraction
    rw [this]
    field_simp
    ring
  rw [hmap, List.sum_map_mul_right]
  unfold Composition.sumY
  rw [div_eq_mul_inv]

/-- Summed over all registered species, number fraction times atomic
mass gives the mass-weighted total divided by the molar total. -/
theorem sum_numberFraction_mul_mass (c : Composition) (hv : c.valid)
    (h : 0 < c.sumY) :
    (c.entries.map (fun j => c.getNumberFraction j.1 * j.1.mass)).sum =
      c.sumYA / c.sumY := by
  have hmap : c.entries.map (fun j => c.getNumberFraction j.1 * j.1.mass) =
      c.entries.map (fun j => (j.2 * j.1.mass) * c.sumY⁻¹) := by
    apply List.map_congr_left
    intro j hj
    have := molarAbundance_of_mem c hv.1 (s := j.1) (v := j.2) (by exact hj)
    unfold Composition.getNumberFraction
    rw [this]
    field_simp
  rw [hmap, List.sum_map_mul_right]
  unfold Composition.sumYA
  rw [div_eq_mul_inv]

/-- C2: for every finalized Composition and registered species, the
number fraction equals the mass fraction over atomic mass normalized by
the sum of those ratios over all registered species, and symmetrically
the mass fraction equals the number fraction times atomic mass
normalized by the sum of those products. -/
theorem conversion_formulas (c : Composition) (e : Species × ℚ)
    (he : e ∈ c.entries) (hv : c.valid) (hfin : 0 < c.sumY) :
    c.getNumberFraction e.1 =
      (c.getMassFraction e.1 / e.1.mass) /
        (c.entries.map (fun j => c.getMassFraction j.1 / j.1.mass)).sum ∧
    c.getMassFraction e.1 =
      (c.getNumberFraction e.1 * e.1.mass) /
        (c.entries.map (fun j => c.getNumberFraction j.1 * j.1.mass)).sum := by
  have hSA := sumYA_pos c hv hfin
  have hm := hv.2.1 e he
  have hme := molarAbundance_of_mem c hv.1 (s := e.1) (v := e.2) he
  constructor
  · rw [sum_massFraction_div_mass c hv hfin]
    unfold Composition.getNumberFraction Composition.getMassFraction
    rw [hme]
    field_simp
    ring
  · rw [sum_numberFraction_mul_mass c hv hfin]
    unfold Composition.getNumberFraction Composition.getMassFraction
    rw [hme]
    field_simp

unseal Rat.add Rat.mul Rat.inv in
/-- Closed instance of the C2 conversion formulas on a two-species
composition with abundances 7 and 3. -/
theorem conversion_formulas_witness :
    ((sH1, (7:ℚ)) ∈ (Composition.mk [(sH1, 7), (sHe4, 3)]).entries) ∧
    (Composition.mk [(sH1, 7), (sHe4, 3)]).valid ∧
    (0 < (Composition.mk [(sH1, 7), (sHe4, 3)]).sumY) ∧
    ((Composition.mk [(sH1, 7), (sHe4, 3)]).getNumberFraction sH1 =
      ((Composition.mk [(sH1, 7), (sHe4, 3)]).getMassFraction sH1 / sH1.mass) /
        ((Composition.mk [(sH1, 7), (sHe4, 3)]).entries.map
          (fun j => (Composition.mk [(sH1, 7), (sHe4, 3)]).getMassFraction j.1 /
            j.1.mass)).sum ∧
     (Composition.mk [(sH1, 7), (sHe4, 3)]).getMassFraction sH1 =
      ((Composition.mk [(sH1, 7), (sHe4, 3)]).getNumberFraction sH1 * sH1.mass) /
        ((Composition.mk [(sH1, 7), (sHe4, 3)]).entries.map
          (fun j => (Composition.mk [(sH1, 7), (sHe4, 3)]).getNumberFraction j.1 *
            j.1.mass)).sum) :=
  ⟨by decide, by decide, by decide,
    conversion_formulas ⟨[(sH1, 7), (sHe4, 3)]⟩ (sH1, 7)
      (by decide) (by decide) (by decide)⟩

unseal Rat.add Rat.mul Rat.inv Rat.sub in
/-- Concrete refutation of the C3 scenario value: on the spec's own
H-1/He-4 scenario the mean particle mass equals the spec's formula
1 / (0.7/1.0 + 0.3/4.0) = 40/31 ≈ 1.2903 amu, which is not within 0.05
of the claimed 1.3793 amu. -/
theorem meanParticleMass_scenario_not_13793 :
    Composition.getMeanParticleMass scenarioHHe = 1 / (7/10 / 1 + 3/10 / 4) ∧
    ¬(|Composition.getMeanParticleMass scenarioHHe - 13793/10000| < 5/100) := by
  constructor <;> decide

unseal Rat.add Rat.mul Rat.inv Rat.sub in
/-- C3 (amended): for every valid Composition the mean particle mass is
1 divided by the sum of the molar abundances of all registered species;
on the spec's H-1/He-4 scenario its value is 40/31 ≈ 1.2903 amu. -/
theorem getMeanParticleMass_spec (c : Composition) (hv : c.valid) :
    c.getMeanParticleMass =
      1 / (c.entries.map (fun j => c.molarAbundance j.1)).sum ∧
    (Composition.getMeanParticleMass scenarioHHe = 40/31 ∧
     |Composition.getMeanParticleMass scenarioHHe - 12903/10000| < 1/1000) := by
  refine ⟨?_, ?_, ?_⟩
  · unfold Composition.getMeanParticleMass
    have hmap : c.entries.map (fun j => c.molarAbundance j.1) =
        c.entries.map (fun j => j.2) := by
      apply List.map_congr_left
      intro j hj
      exact molarAbundance_of_mem c hv.1 (s := j.1) (v := j.2) hj
    rw [hmap]
    rfl
  · decide
  · decide

unseal Rat.add Rat.mul Rat.inv in
/-- Closed instance of the amended C3 theorem at the spec's scenario
composition. -/
theorem getMeanParticleMass_witness :
    Composition.valid scenarioHHe ∧
    Composition.getMeanParticleMass scenarioHHe =
      1 / (scenarioHHe.entries.map
        (fun j => Composition.molarAbundance scenarioHHe j.1)).sum :=
  ⟨by decide, (getMeanParticleMass_spec scenarioHHe (by decide)).1⟩

/-- Mass fractions of a finalized composition sum to one over all
registered species. -/
theorem sum_massFraction_eq_one (c : Composition) (hv : c.valid)
    (h : 0 < c.sumY) :
    (c.entries.map (fun j => c.getMassFraction j.1)).sum = 1 := by
  have hSA := sumYA_pos c hv h
  have hmap : c.entries.map (fun j => c.getMassFraction j.1) =
      c.entries.map (fun j => (j.2 * j.1.mass) * c.sumYA⁻¹) := by
    apply List.map_congr_left
    intro j hj
    unfold Composition.getMassFraction
    rw [molarAbundance_of_mem c hv.1 (s := j.1) (v := j.2) hj]
    rw [div_eq_mul_inv]
  rw [hmap, List.sum_map_mul_right]
  exact mul_inv_cancel₀ (ne_of_gt hSA)

/-- The hydrogen isotopes, the helium isotopes and the rest partition
every entry list, so their three sums add to the total. -/
theorem sum_filter_three (f : Species × ℚ → ℚ) :
    ∀ l : List (Species × ℚ),
    ((l.filter (fun e => e.1.el = "H")).map f).sum +
    ((l.filter (fun e => e.1.el = "He")).map f).sum +
    ((l.filter (fun e => e.1.el ≠ "H" ∧ e.1.el ≠ "He")).map f).sum =
    (l.map f).sum := by
  intro l
  induction l with
  | nil => simp
  | cons e rest ih =>
    by_cases h1 : e.1.el = "H"
    · have h2 : ¬(e.1.el = "He") := by rw [h1]; decide
      simp [List.filter_cons, h1, h2] at ih ⊢
      linarith [ih]
    · by_cases h2 : e.1.el = "He"
      · simp [List.filter_cons, h1, h2] at ih ⊢
        linarith [ih]
      · simp [List.filter_cons, h1, h2] at ih ⊢
        linarith [ih]

/-- C4: for every finalized Composition registering at least one
hydrogen and one helium isotope, getCanonicalComposition returns X as
the summed mass fraction of the isotopes with element symbol "H", Y as
the sum for "He", and the triple satisfies X + Y + Z = 1. -/
theorem canonical_composition_sums_to_one (c : Composition)
    (hv : c.valid) (hfin : 0 < c.sumY)
    (hH : ∃ e ∈ c.entries, e.1.el = "H")
    (hHe : ∃ e ∈ c.entries, e.1.el = "He") :
    c.getCanonicalComposition.X =
      ((c.entries.filter (fun e => e.1.el = "H")).map
        (fun e => c.getMassFraction e.1)).sum ∧
    c.getCanonicalComposition.Y =
      ((c.entries.filter (fun e => e.1.el = "He")).map
        (fun e => c.getMassFraction e.1)).sum ∧
    c.getCanonicalComposition.X + c.getCanonicalComposition.Y +
      c.getCanonicalComposition.Z = 1 := by
  refine ⟨rfl, rfl, ?_⟩
  show c.canonicalX + c.canonicalY + c.canonicalZ = 1
  unfold Composition.canonicalX Composition.canonicalY Composition.canonicalZ
  rw [sum_filter_three (fun e => c.getMassFraction e.1) c.entries]
  exact sum_massFraction_eq_one c hv hfin

unseal Rat.add Rat.mul Rat.inv in
/-- Closed instance of the C4 theorem on a three-species composition
with hydrogen, helium and carbon. -/
theorem canonical_composition_witness :
    Composition.valid ⟨[(sH1, 7), (sHe4, 3), (sC12, 2)]⟩ ∧
    0 < Composition.sumY ⟨[(sH1, 7), (sHe4, 3), (sC12, 2)]⟩ ∧
    (∃ e ∈ (Composition.mk [(sH1, 7), (sHe4, 3), (sC12, 2)]).entries,
      e.1.el = "H") ∧
    (∃ e ∈ (Composition.mk [(sH1, 7), (sHe4, 3), (sC12, 2)]).entries,
      e.1.el = "He") ∧
    (Composition.mk [(sH1, 7), (sHe4, 3), (sC12, 2)]).getCanonicalComposition.X +
      (Composition.mk [(sH1, 7), (sHe4, 3), (sC12, 2)]).getCanonicalComposition.Y +
      (Composition.mk [(sH1, 7), (sHe4, 3), (sC12, 2)]).getCanonicalComposition.Z
      = 1 :=
  ⟨by decide, by decide, by decide, by decide,
    (canonical_composition_sums_to_one ⟨[(sH1, 7), (sHe4, 3), (sC12, 2)]⟩
      (by decide) (by decide) (by decide) (by decide)).2.2⟩

/-- The canonical species order enumerates exactly the registered
species. -/
theorem canonicalOrder_perm (c : Composition) :
    c.canonicalOrder.Perm c.keys :=
  List.perm_insertionSort speciesR c.keys

/-- Uniqueness of registered species carries over to the canonical
order. -/
theorem canonicalOrder_nodup (c : Composition) (hnd : c.keys.Nodup) :
    c.canonicalOrder.Nodup :=
  (canonicalOrder_perm c).nodup_iff.mpr hnd

/-- The canonical species order is sorted by the canonical relation. -/
theorem canonicalOrder_sorted (c : Composition) :
    List.Sorted speciesR c.canonicalOrder :=
  List.sorted_insertionSort speciesR c.keys

/-- The canonical relation is monotone in atomic mass. -/
theorem speciesR_mass_le {s1 s2 : Species} (h : speciesR s1 s2) :
    s1.mass ≤ s2.mass :=
  Prod.Lex.monotone_fst (speciesKey s1) (speciesKey s2) h

/-- C5: for a Composition with unique registered species,
getSpeciesIndex and getSpeciesAtIndex are mutual inverses, the sequence
getSpeciesAtIndex(0..n-1) is monotonically non-decreasing in atomic
mass, and the three vector getters return values in this same canonical
order. -/
theorem species_index_accessors_spec (c : Composition)
    (hnd : c.keys.Nodup) :
    (∀ s ∈ c.keys, c.getSpeciesAtIndex (c.getSpeciesIndex s) = some s) ∧
    (∀ (i : Nat) (s : Species), c.getSpeciesAtIndex i = some s →
      c.getSpeciesIndex s = i) ∧
    (∀ (i j : Nat) (si sj : Species), i ≤ j →
      c.getSpeciesAtIndex i = some si → c.getSpeciesAtIndex j = some sj →
      si.mass ≤ sj.mass) ∧
    (∀ i : Nat,
      c.getMassFractionVector.get? i =
        (c.getSpeciesAtIndex i).map (fun s => c.getMassFraction s) ∧
      c.getNumberFractionVector.get? i =
        (c.getSpeciesAtIndex i).map (fun s => c.getNumberFraction s) ∧
      c.getMolarAbundanceVector.get? i =
        (c.getSpeciesAtIndex i).map (fun s => c.molarAbundance s)) := by
  have hperm := canonicalOrder_perm c
  have hsorted := canonicalOrder_sorted c
  have hnodup := canonicalOrder_nodup c hnd
  refine ⟨?_, ?_, ?_, ?_⟩
  · intro s hs
    have hmem : s ∈ c.canonicalOrder := hperm.mem_iff.mpr hs
    unfold Composition.getSpeciesAtIndex Composition.getSpeciesIndex
    exact List.indexOf_get? hmem
  · intro i s hsome
    unfold Composition.getSpeciesAtIndex at hsome
    obtain ⟨hlt, hget⟩ := List.get?_eq_some.mp hsome
    unfold Composition.getSpeciesIndex
    rw [← hget]
    simpa using List.indexOf_getElem hnodup i hlt
  · intro i j si sj hij hi hj
    unfold Composition.getSpeciesAtIndex at hi hj
    obtain ⟨hlti, hgeti⟩ := List.get?_eq_some.mp hi
    obtain ⟨hltj, hgetj⟩ := List.get?_eq_some.mp hj
    rcases lt_or_eq_of_le hij with hlt | heq
    · have hrel : speciesR (c.canonicalOrder.get ⟨i, hlti⟩)
          (c.canonicalOrder.get ⟨j, hltj⟩) :=
        hsorted.rel_get_of_lt hlt
      rw [hgeti, hgetj] at hrel
      exact speciesR_mass_le hrel
    · subst heq
      rw [hgeti] at hgetj
      rw [hgetj.symm]
  · intro i
    unfold Composition.getMassFractionVector Composition.getNumberFractionVector
      Composition.getMolarAbundanceVector Composition.getSpeciesAtIndex
    refine ⟨?_, ?_, ?_⟩ <;> rw [List.get?_map]

unseal Rat.add Rat.mul Rat.inv in
/-- Closed instance of the C5 theorem: on a three-species composition
registered out of mass order, index lookup of H-1 round-trips. -/
theorem species_index_witness :
    (Composition.mk [(sC12, 2), (sH1, 7), (sHe4, 3)]).keys.Nodup ∧
    sH1 ∈ (Composition.mk [(sC12, 2), (sH1, 7), (sHe4, 3)]).keys ∧
    (Composition.mk [(sC12, 2), (sH1, 7), (sHe4, 3)]).getSpeciesAtIndex
      ((Composition.mk [(sC12, 2), (sH1, 7), (sHe4, 3)]).getSpeciesIndex sH1) =
      some sH1 :=
  ⟨by decide, by decide,
    (species_index_accessors_spec ⟨[(sC12, 2), (sH1, 7), (sHe4, 3)]⟩
      (by decide)).1 sH1 (by decide)⟩

end Fourdst
